import Mathlib

/-!
Verification of the divortio-timeID core (`src/timeID.js`).

Shallow embedding conventions:
* JS strings are modelled as `List Nat` of their UTF-16 code units
  (`charCodeAt` values); string concatenation is `++` and JS `<` on strings
  is the byte-wise `lexLt` below.
* JS numbers appearing as timestamps are modelled as `Nat`; the float
  operations `ts % 64` and `Math.floor(ts * 0.015625)` are exact on
  integers below `2^53`, so they are embedded as `% 64` and `/ 64`.
* The 32-bit coercions of the JS bitwise operators are explicit:
  `x & 0x3F` on a nonnegative integer is `x % 64` (64 divides `2^32`),
  `x >>> k` is `x % 2^32 / 2^k`, `x << k` followed by use as a 32-bit
  value is `x <<< k % 2^32`, and `(x) | 0` stores the residue `x % 2^32`
  (signed and unsigned views agree modulo `2^32`, and every consumer in
  this code reads the value back through a further masking operation).
* The stateful SFC32 generator is embedded by explicit state passing:
  `nextInt32 : Sfc → Nat × Sfc`.
* Fallible operations return `Option` / a sum-like result type; the
  `throw new TypeError` branches are explicit constructors.
-/

set_option maxRecDepth 16384

namespace TimeID

/-- Code units of the source constant `CHAR_DICT_STR`, the 64-symbol
alphabet 0-9 A-Z underscore a-z tilde in dictionary order: digits 48-57,
uppercase 65-90, underscore 95, lowercase 97-122, tilde 126. -/
def CHAR_CODES : List Nat :=
  [48, 49, 50, 51, 52, 53, 54, 55, 56, 57,
   65, 66, 67, 68, 69, 70, 71, 72, 73, 74, 75, 76, 77, 78, 79, 80, 81, 82,
   83, 84, 85, 86, 87, 88, 89, 90,
   95,
   97, 98, 99, 100, 101, 102, 103, 104, 105, 106, 107, 108, 109, 110, 111,
   112, 113, 114, 115, 116, 117, 118, 119, 120, 121, 122,
   126]

/-- Models `CHAR_DICT[i]`: the code unit of the alphabet symbol at index `i`
(all call sites mask the index into `0..63`). -/
def charAt (i : Nat) : Nat := CHAR_CODES.getD i 0

/-- Models the `ASCII_LOOKUP` Int8Array: the alphabet index of a code unit,
or `-1` for code units outside the alphabet. -/
def ASCII_LOOKUP (code : Nat) : Int :=
  match CHAR_CODES.findIdx? (fun c => c == code) with
  | some i => (i : Int)
  | none => -1

/-- Models `DOUBLE_CHAR_DICT[i] = CHAR_DICT[i & 0x3F] + CHAR_DICT[(i >>> 6) & 0x3F]`
for `i < 4096`: the two-symbol string for a 12-bit value, low 6 bits first. -/
def DOUBLE_CHAR_DICT (i : Nat) : List Nat :=
  [charAt (i % 64), charAt (i / 64 % 64)]

/-- Byte-wise (code-unit-wise) lexicographic `<` of JS strings. -/
def lexLt : List Nat → List Nat → Bool
  | [], [] => false
  | [], _ :: _ => true
  | _ :: _, [] => false
  | a :: as, b :: bs =>
    if a < b then true else if b < a then false else lexLt as bs

/-- The SFC32 generator state: the four 32-bit words `_a _b _c _d`. -/
structure Sfc where
  a : Nat
  b : Nat
  c : Nat
  d : Nat
deriving DecidableEq, Repr

/-- Models `nextInt32`: one advance of the SFC32 state, returning the draw
and the new state.  Every `|0`-stored word is kept as its residue mod `2^32`. -/
def nextInt32 (s : Sfc) : Nat × Sfc :=
  let t := (s.a + s.b) % 2 ^ 32
  let d := (s.d + 1) % 2 ^ 32
  let b0 := s.b % 2 ^ 32
  let a := b0 ^^^ (b0 >>> 9)
  let b := ((s.c % 2 ^ 32) + ((s.c <<< 3) % 2 ^ 32)) % 2 ^ 32
  let rot := ((s.c <<< 21) % 2 ^ 32) ||| ((s.c % 2 ^ 32) >>> 11)
  let c := (rot + t) % 2 ^ 32
  ((t + d) % 2 ^ 32, ⟨a, b, c, d⟩)

/-- Models the `length === 12` fast path of `newRND`: three draws, each
yielding four symbols through two double-table lookups. -/
def fastPath12 (s : Sfc) : List Nat × Sfc :=
  let p1 := nextInt32 s
  let p2 := nextInt32 p1.2
  let p3 := nextInt32 p2.2
  (DOUBLE_CHAR_DICT (p1.1 % 4096) ++ DOUBLE_CHAR_DICT (p1.1 / 4096 % 4096) ++
     (DOUBLE_CHAR_DICT (p2.1 % 4096) ++ DOUBLE_CHAR_DICT (p2.1 / 4096 % 4096) ++
       (DOUBLE_CHAR_DICT (p3.1 % 4096) ++ DOUBLE_CHAR_DICT (p3.1 / 4096 % 4096))),
   p3.2)

/-- Models the `length === 21` fast path of `newRND`: five four-symbol
draws plus one single-symbol draw. -/
def fastPath21 (s : Sfc) : List Nat × Sfc :=
  let p1 := nextInt32 s
  let p2 := nextInt32 p1.2
  let p3 := nextInt32 p2.2
  let p4 := nextInt32 p3.2
  let p5 := nextInt32 p4.2
  let p6 := nextInt32 p5.2
  (DOUBLE_CHAR_DICT (p1.1 % 4096) ++ DOUBLE_CHAR_DICT (p1.1 / 4096 % 4096) ++
     (DOUBLE_CHAR_DICT (p2.1 % 4096) ++ DOUBLE_CHAR_DICT (p2.1 / 4096 % 4096) ++
       (DOUBLE_CHAR_DICT (p3.1 % 4096) ++ DOUBLE_CHAR_DICT (p3.1 / 4096 % 4096) ++
         (DOUBLE_CHAR_DICT (p4.1 % 4096) ++ DOUBLE_CHAR_DICT (p4.1 / 4096 % 4096) ++
           (DOUBLE_CHAR_DICT (p5.1 % 4096) ++ DOUBLE_CHAR_DICT (p5.1 / 4096 % 4096) ++
             [charAt (p6.1 % 64)])))),
   p6.2)

/-- Models one trip round the slow-path `while` loop of `newRND`, indexed by
the number of symbols still to produce (`len - i`): a draw yields a double
lookup when two or more symbols remain, a second double lookup from the
shifted draw when two more still remain, and a fresh single-symbol draw
when exactly one remains. -/
def slowLoop : Nat → Sfc → List Nat × Sfc
  | 0, s => ([], s)
  | 1, s =>
    let p := nextInt32 s
    ([charAt (p.1 % 64)], p.2)
  | 2, s =>
    let p := nextInt32 s
    (DOUBLE_CHAR_DICT (p.1 % 4096), p.2)
  | 3, s =>
    let p := nextInt32 s
    let q := slowLoop 1 p.2
    (DOUBLE_CHAR_DICT (p.1 % 4096) ++ q.1, q.2)
  | 4, s =>
    let p := nextInt32 s
    (DOUBLE_CHAR_DICT (p.1 % 4096) ++ DOUBLE_CHAR_DICT (p.1 / 4096 % 4096), p.2)
  | n + 5, s =>
    let p := nextInt32 s
    let q := slowLoop (n + 1) p.2
    (DOUBLE_CHAR_DICT (p.1 % 4096) ++
       (DOUBLE_CHAR_DICT (p.1 / 4096 % 4096) ++ q.1), q.2)

/-- Models the slow path of `newRND`: clamp the requested length into
`[12, 1024]`, then run the batching loop. -/
def slowPath (length : Int) (s : Sfc) : List Nat × Sfc :=
  let len1 : Int := if length < 12 then 12 else length
  let len2 : Int := if len1 > 1024 then 1024 else len1
  slowLoop len2.toNat s

/-- Models `newRND(length)` with explicit generator state. -/
def newRND (length : Int) (s : Sfc) : List Nat × Sfc :=
  if length = 12 then fastPath12 s
  else if length = 21 then fastPath21 s
  else slowPath length s

/-- Models `encodeTime` on an integer time value `t` (exact for `t < 2^53`).
The first two symbols come from exact float arithmetic (`% 64` and
`Math.floor(ts * 0.015625)`); the remaining six use the 32-bit-coerced
operators `& 0x3F` (which is `% 64` because `64` divides `2^32`) and
`>>>= 6` (which truncates the running value to 32 bits before shifting). -/
def encodeTime (t : Nat) : List Nat :=
  let c7 := charAt (t % 64)
  let t1 := t / 64
  let c6 := charAt (t1 % 64)
  let t2 := t1 / 64
  let c5 := charAt (t2 % 64)
  let t3 := t2 % 2 ^ 32 / 64
  let c4 := charAt (t3 % 64)
  let t4 := t3 % 2 ^ 32 / 64
  let c3 := charAt (t4 % 64)
  let t5 := t4 % 2 ^ 32 / 64
  let c2 := charAt (t5 % 64)
  let t6 := t5 % 2 ^ 32 / 64
  let c1 := charAt (t6 % 64)
  let t7 := t6 % 2 ^ 32 / 64
  let c0 := charAt (t7 % 64)
  [c0, c1, c2, c3, c4, c5, c6, c7]

/-- A JS number as far as the `encodeTime` input check can observe it:
`NaN`, the two infinities, or a finite value (a binary64 finite value is a
rational number). -/
inductive JSNum where
  | nan
  | posInf
  | negInf
  | finite (q : ℚ)
deriving DecidableEq

/-- The JS comparison `x < 0`: false for `NaN`, false for `+Infinity`,
true for `-Infinity`, and the rational comparison for finite values. -/
def JSNum.ltZero : JSNum → Bool
  | .nan => false
  | .posInf => false
  | .negInf => true
  | .finite q => decide (q < 0)

/-- An arbitrary JS argument to `encodeTime`: a number, a Date (carrying
its `getTime()` number), or anything else. -/
inductive JSVal where
  | num (x : JSNum)
  | date (x : JSNum)
  | other
deriving DecidableEq

/-- Models line 159 of the source: `typeof time === 'number' ? time :
(time instanceof Date ? time.getTime() : null)`. -/
def toTs : JSVal → Option JSNum
  | .num x => some x
  | .date x => some x
  | .other => none

/-- Models the guard of `encodeTime` (line 160): `true` exactly when
`throw new TypeError(...)` is executed, i.e. when `ts === null || ts < 0`. -/
def encodeTimeThrows (v : JSVal) : Bool :=
  match toTs v with
  | none => true
  | some x => x.ltZero

/-- The first-8-characters accumulation loop of `decodeTime`, indexed by
characters still to read: reject a code unit above 127 or outside the
alphabet, otherwise accumulate `ts = ts * 64 + val`. -/
def decodeLoop : Nat → List Nat → Nat → Option Nat
  | 0, _, ts => some ts
  | _ + 1, [], _ => none
  | k + 1, c :: rest, ts =>
    if 127 < c then none
    else
      let val := ASCII_LOOKUP c
      if val = -1 then none
      else decodeLoop k rest (ts * 64 + val.toNat)

/-- Models `decodeTime(tid)` for a string argument: `null` (here `none`)
for a missing or short string, otherwise the base-64 value of the first 8
characters. -/
def decodeTime (tid : List Nat) : Option Nat :=
  if tid.length < 8 then none
  else decodeLoop 8 tid 0

/-- Result of `TimeIDRandom.decodeTimeIDr` on a string argument: the
`throw new TypeError` branch, the `undefined` sentinel, or a decoded
record with its timestamp, time part and randomness fields. -/
inductive DecodeResult where
  | thrown
  | noValue
  | ok (ts : Nat) (timePart : List Nat) (randomness : List Nat)
deriving DecidableEq

/-- Timestamp field of a successful parse. -/
def DecodeResult.tsField : DecodeResult → Option Nat
  | .ok ts _ _ => some ts
  | _ => none

/-- Randomness field of a successful parse. -/
def DecodeResult.rndField : DecodeResult → Option (List Nat)
  | .ok _ _ r => some r
  | _ => none

/-- Models `TimeIDRandom.decodeTimeIDr(tidr, delimiter)` on a string
argument: strings shorter than 8 hit the `throw new TypeError` branch;
otherwise the first 8 characters must decode, a configured non-empty
delimiter must match byte-for-byte, and the rest is the randomness field. -/
def decodeTimeIDr (tidr delim : List Nat) : DecodeResult :=
  if 8 ≤ tidr.length then
    let timePart := tidr.take 8
    match decodeTime timePart with
    | some ts =>
      let startIndex := 8 + delim.length
      if 0 < delim.length then
        if (tidr.drop 8).take delim.length = delim then
          DecodeResult.ok ts timePart (tidr.drop startIndex)
        else DecodeResult.noValue
      else DecodeResult.ok ts timePart (tidr.drop startIndex)
    | none => DecodeResult.noValue
  else DecodeResult.thrown

/-- Models `TimeIDRandom.newID(t, length, delimiter)` for an integer time:
`encodeTime(t) + delimiter + newRND(length)`, with explicit generator
state. -/
def newID (t : Nat) (length : Int) (delim : List Nat) (s : Sfc) :
    List Nat × Sfc :=
  let r := newRND length s
  (encodeTime t ++ delim ++ r.1, r.2)

/-- Looking an alphabet symbol back up through the reverse table yields its
index, and every alphabet symbol is an ASCII code unit. -/
theorem lookup_charAt :
    ∀ d : Nat, d < 64 → ASCII_LOOKUP (charAt d) = (d : Int) ∧ charAt d ≤ 127 := by
  decide

/-- The alphabet strictly increases in code-unit value: index order and
byte order agree. -/
theorem charAt_lt_iff :
    ∀ a : Nat, a < 64 → ∀ b : Nat, b < 64 → (charAt a < charAt b ↔ a < b) := by
  decide

/-- Below `2^44` (where the running value entering the `>>>`-based section
still fits in 32 bits), `encodeTime` emits exactly the eight base-64
digits of `t`, most significant first. -/
theorem encodeTime_eq_digits (t : Nat) (ht : t < 17592186044416) :
    encodeTime t =
      [charAt (t / 4398046511104 % 64), charAt (t / 68719476736 % 64),
       charAt (t / 1073741824 % 64), charAt (t / 16777216 % 64),
       charAt (t / 262144 % 64), charAt (t / 4096 % 64),
       charAt (t / 64 % 64), charAt (t % 64)] := by
  simp only [encodeTime, List.cons.injEq, and_true]
  refine ⟨?_, ?_, ?_, ?_, ?_, ?_⟩ <;> (congr 1; omega)

/-- Reading one alphabet symbol advances the decode accumulator by
`acc * 64 + d`. -/
theorem decodeLoop_cons (k d : Nat) (hd : d < 64) (rest : List Nat) (acc : Nat) :
    decodeLoop (k + 1) (charAt d :: rest) acc = decodeLoop k rest (acc * 64 + d) := by
  obtain ⟨h1, h2⟩ := lookup_charAt d hd
  simp only [decodeLoop, h1]
  rw [if_neg (by omega), if_neg (by omega), Int.toNat_natCast]

/-- Round trip of the codec on its actually supported range: below `2^44`
decoding inverts encoding. -/
theorem decodeTime_encodeTime (t : Nat) (ht : t < 17592186044416) :
    decodeTime (encodeTime t) = some t := by
  rw [encodeTime_eq_digits t ht]
  simp only [decodeTime, List.length_cons, List.length_nil]
  rw [if_neg (by omega)]
  rw [decodeLoop_cons _ _ (by omega), decodeLoop_cons _ _ (by omega),
    decodeLoop_cons _ _ (by omega), decodeLoop_cons _ _ (by omega),
    decodeLoop_cons _ _ (by omega), decodeLoop_cons _ _ (by omega),
    decodeLoop_cons _ _ (by omega), decodeLoop_cons _ _ (by omega)]
  simp only [decodeLoop]
  congr 1
  omega

/-- One comparison step of `lexLt` on alphabet symbols mirrors the
comparison of their indices. -/
theorem lexLt_charAt_cons (a b : Nat) (ha : a < 64) (hb : b < 64)
    (as bs : List Nat) :
    lexLt (charAt a :: as) (charAt b :: bs) =
      (if a < b then true else if b < a then false else lexLt as bs) := by
  have h1 := charAt_lt_iff a ha b hb
  have h2 := charAt_lt_iff b hb a ha
  simp only [lexLt]
  by_cases hab : a < b
  · rw [if_pos (h1.mpr hab), if_pos hab]
  · rw [if_neg (fun hc => hab (h1.mp hc)), if_neg hab]
    by_cases hba : b < a
    · rw [if_pos (h2.mpr hba), if_pos hba]
    · rw [if_neg (fun hc => hba (h2.mp hc)), if_neg hba]

/-- Applying the alphabet map to two index lists preserves the outcome of
the byte-wise comparison (the alphabet is strictly increasing). -/
theorem lexLt_map_charAt :
    ∀ ds : List Nat, ∀ es : List Nat, (∀ d ∈ ds, d < 64) → (∀ e ∈ es, e < 64) →
      lexLt (ds.map charAt) (es.map charAt) = lexLt ds es := by
  intro ds
  induction ds with
  | nil => intro es _ _; cases es <;> rfl
  | cons d ds ih =>
    intro es hds hes
    cases es with
    | nil => rfl
    | cons e es =>
      simp only [List.map_cons]
      rw [lexLt_charAt_cons d e (hds d (by simp)) (hes e (by simp))]
      rw [ih es (fun x hx => hds x (by simp [hx])) (fun x hx => hes x (by simp [hx]))]
      simp only [lexLt]

/-- Proof device: the `k` base-64 digits of a value, most significant
first.  Used only to state and prove the codec ordering lemmas. -/
def digitsBE : Nat → Nat → List Nat
  | 0, _ => []
  | k + 1, t => t / 64 ^ k :: digitsBE k (t % 64 ^ k)

/-- Every base-64 digit of a value within range is below 64. -/
theorem digitsBE_lt :
    ∀ (k t : Nat), t < 64 ^ k → ∀ d ∈ digitsBE k t, d < 64 := by
  intro k
  induction k with
  | zero => intro t _ d hd; simp [digitsBE] at hd
  | succ k ih =>
    intro t ht d hd
    simp only [digitsBE, List.mem_cons] at hd
    rcases hd with rfl | hd
    · have : t < 64 ^ k * 64 := by rw [← pow_succ]; exact ht
      exact Nat.div_lt_of_lt_mul this
    · exact ih (t % 64 ^ k) (Nat.mod_lt _ (Nat.pos_pow_of_pos _ (by norm_num))) d hd

/-- Numeric order agrees with lexicographic order of the most-significant-
first digit lists. -/
theorem lexLt_digitsBE :
    ∀ (k t1 t2 : Nat), t1 < t2 → t2 < 64 ^ k →
      lexLt (digitsBE k t1) (digitsBE k t2) = true := by
  intro k
  induction k with
  | zero => intro t1 t2 h12 h2; simp at h2; omega
  | succ k ih =>
    intro t1 t2 h12 h2
    simp only [digitsBE, lexLt]
    have hle : t1 / 64 ^ k ≤ t2 / 64 ^ k := Nat.div_le_div_right (by omega)
    by_cases hlt : t1 / 64 ^ k < t2 / 64 ^ k
    · rw [if_pos hlt]
    · rw [if_neg hlt, if_neg (by omega)]
      have hq : t1 / 64 ^ k = t2 / 64 ^ k := by omega
      have e1 := Nat.div_add_mod t1 (64 ^ k)
      have e2 := Nat.div_add_mod t2 (64 ^ k)
      rw [hq] at e1
      have hmlt : t1 % 64 ^ k < t2 % 64 ^ k := by omega
      exact ih (t1 % 64 ^ k) (t2 % 64 ^ k) hmlt
        (Nat.mod_lt _ (Nat.pos_pow_of_pos _ (by norm_num)))

/-- The explicit digit list of `encodeTime` is `digitsBE 8`. -/
theorem digitsBE_eight (t : Nat) (ht : t < 17592186044416) :
    digitsBE 8 t =
      [t / 4398046511104 % 64, t / 68719476736 % 64, t / 1073741824 % 64,
       t / 16777216 % 64, t / 262144 % 64, t / 4096 % 64, t / 64 % 64,
       t % 64] := by
  simp only [digitsBE, List.cons.injEq, and_true]
  norm_num
  refine ⟨?_, ?_, ?_, ?_, ?_, ?_, ?_⟩ <;> omega

/-- Below `2^44`, `encodeTime` is the alphabet image of the eight-digit
base-64 expansion. -/
theorem encodeTime_eq_map (t : Nat) (ht : t < 17592186044416) :
    encodeTime t = List.map charAt (digitsBE 8 t) := by
  rw [encodeTime_eq_digits t ht, digitsBE_eight t ht]
  rfl

/-- Strict monotonicity of the encoding in byte-wise order, on the range
where the running value never overflows the 32-bit coercions. -/
theorem encodeTime_mono (t1 t2 : Nat) (h12 : t1 < t2) (h2 : t2 < 17592186044416) :
    lexLt (encodeTime t1) (encodeTime t2) = true := by
  rw [encodeTime_eq_map t1 (by omega), encodeTime_eq_map t2 h2]
  have hb1 : t1 < 64 ^ 8 := by norm_num; omega
  have hb2 : t2 < 64 ^ 8 := by norm_num; omega
  rw [lexLt_map_charAt _ _ (digitsBE_lt 8 t1 hb1) (digitsBE_lt 8 t2 hb2)]
  exact lexLt_digitsBE 8 t1 t2 h12 hb2

/-- The decode loop only inspects the characters it consumes: extra
trailing characters do not change its result. -/
theorem decodeLoop_append :
    ∀ (k : Nat) (xs ys : List Nat) (acc : Nat), k ≤ xs.length →
      decodeLoop k (xs ++ ys) acc = decodeLoop k xs acc := by
  intro k
  induction k with
  | zero => intro xs ys acc _; rfl
  | succ k ih =>
    intro xs ys acc hk
    match xs with
    | [] => simp at hk
    | c :: rest =>
      simp only [List.cons_append, decodeLoop]
      by_cases hc : 127 < c
      · rw [if_pos hc, if_pos hc]
      · rw [if_neg hc, if_neg hc]
        by_cases hl : ASCII_LOOKUP c = -1
        · rw [if_pos hl, if_pos hl]
        · rw [if_neg hl, if_neg hl]
          exact ih rest ys _ (by simpa using hk)

/-- `decodeTime` reads exactly the first 8 characters: any trailing
characters are ignored. -/
theorem decodeTime_append (u sfx : List Nat) (hu : u.length = 8) :
    decodeTime (u ++ sfx) = decodeTime u := by
  simp only [decodeTime, List.length_append, hu]
  rw [if_neg (by omega), if_neg (by omega)]
  exact decodeLoop_append 8 u sfx 0 (by omega)

/-- Every code unit the decode loop accepts maps to an alphabet index
below 64. -/
theorem lookup_range :
    ∀ c : Nat, c < 128 →
      ASCII_LOOKUP c = -1 ∨ (ASCII_LOOKUP c).toNat < 64 := by
  decide

/-- The decode accumulator grows by a factor of at most 64 per character:
a run of `k` characters multiplies the bound by `64^k`. -/
theorem decodeLoop_lt :
    ∀ (k : Nat) (xs : List Nat) (acc v : Nat),
      decodeLoop k xs acc = some v → v < (acc + 1) * 64 ^ k := by
  intro k
  induction k with
  | zero =>
    intro xs acc v h
    simp only [decodeLoop, Option.some.injEq] at h
    simp only [pow_zero, mul_one]
    omega
  | succ k ih =>
    intro xs acc v h
    match xs with
    | [] => simp [decodeLoop] at h
    | c :: rest =>
      simp only [decodeLoop] at h
      split at h
      · simp at h
      · split at h
        · simp at h
        · rename_i hc hv
          have hval : (ASCII_LOOKUP c).toNat < 64 := by
            rcases lookup_range c (by omega) with h0 | h0
            · exact absurd h0 hv
            · exact h0
          calc v < (acc * 64 + (ASCII_LOOKUP c).toNat + 1) * 64 ^ k := ih _ _ _ h
            _ ≤ ((acc + 1) * 64) * 64 ^ k := Nat.mul_le_mul_right _ (by omega)
            _ = (acc + 1) * 64 ^ (k + 1) := by ring

/-- The batching loop emits exactly the requested number of symbols. -/
theorem slowLoop_length :
    ∀ (n : Nat) (s : Sfc), ((slowLoop n s).1).length = n := by
  intro n
  induction n using Nat.strong_induction_on with
  | _ n ih =>
    match n with
    | 0 => intro s; rfl
    | 1 => intro s; rfl
    | 2 => intro s; rfl
    | 3 =>
      intro s
      simp only [slowLoop, DOUBLE_CHAR_DICT, List.length_append, List.length_cons,
        List.length_nil]
    | 4 => intro s; rfl
    | n + 5 =>
      intro s
      simp only [slowLoop, DOUBLE_CHAR_DICT, List.length_append, List.length_cons,
        List.length_nil]
      rw [ih (n + 1) (by omega) _]
      omega

/-- `newRND` always returns exactly `clamp(length, 12, 1024)` symbols,
whatever the generator state. -/
theorem newRND_length (n : Int) (s : Sfc) :
    ((newRND n s).1).length = (max 12 (min n 1024)).toNat := by
  unfold newRND
  by_cases h12 : n = 12
  · subst h12
    rw [if_pos rfl]
    rfl
  · rw [if_neg h12]
    by_cases h21 : n = 21
    · subst h21
      rw [if_pos rfl]
      rfl
    · rw [if_neg h21]
      unfold slowPath
      rw [slowLoop_length]
      split_ifs <;> omega

/-- The two specialized fast paths of `newRND` coincide with the general
batching slow path run at the same length, draw for draw: same output
string and same final generator state. -/
theorem fastPath_eq_slowPath (s : Sfc) :
    fastPath12 s = slowPath 12 s ∧ fastPath21 s = slowPath 21 s :=
  ⟨rfl, rfl⟩

/-- Bitwise or of disjoint parts is addition: or-ing a multiple of `2^21`
with a value below `2^21` adds them. -/
theorem lor_mul_pow_add (a b : Nat) (hb : b < 2 ^ 21) :
    (2 ^ 21 * a) ||| b = 2 ^ 21 * a + b := by
  apply Nat.eq_of_testBit_eq
  intro j
  rw [Nat.testBit_or, Nat.testBit_mul_pow_two_add a hb j]
  by_cases hj : j < 21
  · rw [if_pos hj]
    have hm : (2 ^ 21 * a).testBit j = false := by
      rw [Nat.testBit_mul_pow_two]
      simp [Nat.not_le.mpr hj]
    rw [hm, Bool.false_or]
  · rw [if_neg hj]
    have hbf : b.testBit j = false :=
      Nat.testBit_lt_two_pow
        (lt_of_lt_of_le hb (Nat.pow_le_pow_right (by norm_num) (by omega)))
    have hm : (2 ^ 21 * a).testBit j = a.testBit (j - 21) := by
      rw [Nat.testBit_mul_pow_two]
      simp [Nat.le_of_not_lt hj]
    rw [hm, hbf, Bool.or_false]

/-- The or-of-shifts in the `_c` update of `nextInt32` is the 21-place
rotation of the 32-bit word `c`, written arithmetically. -/
theorem rot21_eq (c : Nat) (hc : c < 2 ^ 32) :
    ((c <<< 21) % 2 ^ 32) ||| ((c % 2 ^ 32) >>> 11) =
      2 ^ 21 * (c % 2 ^ 11) + c / 2 ^ 11 := by
  have h1 : (c <<< 21) % 2 ^ 32 = 2 ^ 21 * (c % 2 ^ 11) := by
    rw [Nat.shiftLeft_eq]
    omega
  have h2 : (c % 2 ^ 32) >>> 11 = c / 2 ^ 11 := by
    rw [Nat.mod_eq_of_lt hc, Nat.shiftRight_eq_div_pow]
  rw [h1, h2]
  exact lor_mul_pow_add _ _ (by omega)

/-- C8: one advance of `nextInt32` performs exactly the specified SFC32
step: with `t = (a+b) mod 2^32` and the counter bumped to `(d+1) mod
2^32`, the new state is `(b xor (b logical-shift-right 9), (c + (c
shift-left 3)) mod 2^32, (rotate-left(c,21) + t) mod 2^32, d+1)` — the
rotation written arithmetically as `2^21 * (c mod 2^11) + c / 2^11` — and
the draw is `(t + (d+1)) mod 2^32`. -/
theorem c8_prng_step (a b c d : Nat)
    (ha : a < 2 ^ 32) (hb : b < 2 ^ 32) (hc : c < 2 ^ 32) (hd : d < 2 ^ 32) :
    nextInt32 ⟨a, b, c, d⟩ =
      (((a + b) % 2 ^ 32 + (d + 1) % 2 ^ 32) % 2 ^ 32,
       ⟨b ^^^ b / 2 ^ 9,
        (c + c * 2 ^ 3) % 2 ^ 32,
        (2 ^ 21 * (c % 2 ^ 11) + c / 2 ^ 11 + (a + b) % 2 ^ 32) % 2 ^ 32,
        (d + 1) % 2 ^ 32⟩) := by
  simp only [nextInt32, Prod.mk.injEq, Sfc.mk.injEq]
  refine ⟨trivial, ?_, ?_, ?_, trivial⟩
  · rw [Nat.mod_eq_of_lt hb, Nat.shiftRight_eq_div_pow]
  · rw [Nat.shiftLeft_eq]
    omega
  · rw [rot21_eq c hc]

/-- For a string of at least 8 characters, `decodeTimeIDr` never reaches
the `throw` branch: it returns either a record or the sentinel. -/
theorem decodeTimeIDr_not_thrown (tidr delim : List Nat) (h : 8 ≤ tidr.length) :
    decodeTimeIDr tidr delim ≠ DecodeResult.thrown := by
  simp only [decodeTimeIDr]
  rw [if_pos h]
  split
  · split_ifs <;> simp
  · simp

/-- Any successfully decoded timestamp is below `64^8 = 2^48`. -/
theorem decodeTime_lt (u : List Nat) (v : Nat) (h : decodeTime u = some v) :
    v < 2 ^ 48 := by
  simp only [decodeTime] at h
  split at h
  · exact absurd h (by simp)
  · have hb := decodeLoop_lt 8 u 0 v h
    norm_num at hb
    norm_num
    exact hb

/-- The timestamp field of any successful `decodeTimeIDr` parse is below
`2^48`. -/
theorem decodeTimeIDr_ts_lt (tidr delim : List Nat) (ts : Nat)
    (h : (decodeTimeIDr tidr delim).tsField = some ts) : ts < 2 ^ 48 := by
  simp only [decodeTimeIDr] at h
  split at h
  · split at h
    · rename_i ts' heq
      split_ifs at h
      · simp only [DecodeResult.tsField, Option.some.injEq] at h
        exact h ▸ decodeTime_lt _ _ heq
      · simp [DecodeResult.tsField] at h
      · simp only [DecodeResult.tsField, Option.some.injEq] at h
        exact h ▸ decodeTime_lt _ _ heq
    · simp [DecodeResult.tsField] at h
  · simp [DecodeResult.tsField] at h

/-- `decodeTime` on an encoding with any trailing characters still
recovers the value, on the supported range. -/
theorem decodeTime_prefix (t : Nat) (ht : t < 17592186044416) (sfx : List Nat) :
    decodeTime (encodeTime t ++ sfx) = some t := by
  rw [decodeTime_append (encodeTime t) sfx rfl]
  exact decodeTime_encodeTime t ht

/-- Parsing a freshly composed identifier with delimiter `"-"` (code 45)
recovers the timestamp and a 12-symbol randomness field, on the supported
range, whatever the generator state. -/
theorem decode_newID (t : Nat) (ht : t < 17592186044416) (s : Sfc) :
    (decodeTimeIDr (newID t 12 [45] s).1 [45]).tsField = some t ∧
    ((decodeTimeIDr (newID t 12 [45] s).1 [45]).rndField).map List.length =
      some 12 := by
  have hu : (encodeTime t).length = 8 := rfl
  have hr : ((newRND 12 s).1).length = 12 := by simpa using newRND_length 12 s
  have hassoc : (newID t 12 [45] s).1 =
      encodeTime t ++ ([45] ++ (newRND 12 s).1) := by
    simp [newID, List.append_assoc]
  rw [hassoc]
  have hlen : (encodeTime t ++ ([45] ++ (newRND 12 s).1)).length = 21 := by
    simp [hu, hr]
  have htake : (encodeTime t ++ ([45] ++ (newRND 12 s).1)).take 8 =
      encodeTime t := List.take_left' hu
  have hdrop : (encodeTime t ++ ([45] ++ (newRND 12 s).1)).drop 8 =
      [45] ++ (newRND 12 s).1 := List.drop_left' hu
  have hdrop9 : (encodeTime t ++ ([45] ++ (newRND 12 s).1)).drop 9 =
      (newRND 12 s).1 := by
    rw [← List.append_assoc]
    exact List.drop_left' (by simp [hu])
  simp only [decodeTimeIDr]
  rw [if_pos (by rw [hlen]; norm_num)]
  rw [htake, decodeTime_encodeTime t ht]
  simp only [List.length_cons, List.length_nil]
  rw [if_pos (by norm_num)]
  rw [hdrop, List.take_left' (by rfl)]
  rw [if_pos rfl]
  refine ⟨?_, ?_⟩
  · simp [DecodeResult.tsField]
  · simp only [DecodeResult.rndField]
    norm_num
    omega

/-- C1: the claimed 48-bit round trip fails at `t = 2^44` (the `>>>`-based
extraction truncates the running value to 32 bits after two divisions by
64, so encoding wraps at 44 bits, not 48); on `[0, 2^44)` the round trip
holds exactly. -/
theorem c1_timestamp_roundtrip :
    decodeTime (encodeTime 17592186044416) = some 0 ∧
    ∀ t : Nat, t < 17592186044416 → decodeTime (encodeTime t) = some t :=
  ⟨by decide, fun t ht => decodeTime_encodeTime t ht⟩

/-- Witness for C1: the round trip evaluated at a concrete epoch-millisecond
timestamp. -/
theorem c1_timestamp_roundtrip_witness :
    decodeTime (encodeTime 1731976000000) = some 1731976000000 :=
  c1_timestamp_roundtrip.2 1731976000000 (by norm_num)

/-- C2: strict order preservation fails on the claimed 48-bit range —
`encodeTime` collapses `2^44` onto the encoding of `0` — but holds
strictly on `[0, 2^44)` under byte-wise comparison. -/
theorem c2_sort_order :
    lexLt (encodeTime 0) (encodeTime 17592186044416) = false ∧
    ∀ t1 t2 : Nat, t1 < t2 → t2 < 17592186044416 →
      lexLt (encodeTime t1) (encodeTime t2) = true :=
  ⟨by decide, fun t1 t2 h12 h2 => encodeTime_mono t1 t2 h12 h2⟩

/-- Witness for C2: order preservation at two concrete timestamps. -/
theorem c2_sort_order_witness : lexLt (encodeTime 3) (encodeTime 5) = true :=
  c2_sort_order.2 3 5 (by norm_num) (by norm_num)

/-- Counterexample for C3: `encodeTime` does not raise on the non-finite
numbers `NaN` and `+Infinity` — the guard only checks `ts === null` and
`ts < 0`, and both comparisons are false for these values. -/
theorem c3_counterexample :
    encodeTimeThrows (JSVal.num JSNum.nan) = false ∧
    encodeTimeThrows (JSVal.num JSNum.posInf) = false :=
  ⟨rfl, rfl⟩

/-- C3 (amended): `encodeTime` raises a `TypeError` exactly when the input
is neither a number nor a Date, or is `-Infinity`, or is a negative finite
value; `NaN` and `+Infinity` (and every non-negative value) are accepted
without error. -/
theorem c3_throw_characterization :
    ∀ v : JSVal,
      encodeTimeThrows v = true ↔
        (v = JSVal.other ∨ v = JSVal.num JSNum.negInf ∨
          v = JSVal.date JSNum.negInf ∨
          ∃ q : ℚ, q < 0 ∧
            (v = JSVal.num (JSNum.finite q) ∨ v = JSVal.date (JSNum.finite q))) := by
  intro v
  cases v with
  | num x =>
    cases x <;> simp [encodeTimeThrows, toTs, JSNum.ltZero]
  | date x =>
    cases x <;> simp [encodeTimeThrows, toTs, JSNum.ltZero]
  | other =>
    simp [encodeTimeThrows, toTs]

/-- C4: parsing does raise on short strings — `decodeTimeIDr("abc", "")`
hits the explicit `throw new TypeError` branch, contradicting the claim
(and the repository's API reference); for strings of length at least 8 it
never raises, returning a record or the sentinel. -/
theorem c4_short_input_throws :
    decodeTimeIDr [97, 98, 99] [] = DecodeResult.thrown ∧
    ∀ tidr delim : List Nat, 8 ≤ tidr.length →
      decodeTimeIDr tidr delim ≠ DecodeResult.thrown :=
  ⟨rfl, fun tidr delim h => decodeTimeIDr_not_thrown tidr delim h⟩

/-- Witness for C4: an 8-character string does not reach the throw branch. -/
theorem c4_short_input_throws_witness :
    decodeTimeIDr [48, 48, 48, 48, 48, 48, 48, 48] [] ≠ DecodeResult.thrown :=
  c4_short_input_throws.2 [48, 48, 48, 48, 48, 48, 48, 48] [] (by norm_num)

/-- C5: `newRND` returns exactly `clamp(length, 12, 1024)` symbols for
every integer request and every generator state (and, being total, never
errors). -/
theorem c5_suffix_length :
    ∀ (n : Int) (s : Sfc),
      ((newRND n s).1).length = (max 12 (min n 1024)).toNat :=
  fun n s => newRND_length n s

/-- C6: the composer/parser round trip fails on the claimed 48-bit range —
at `t = 2^44` the parse succeeds but recovers timestamp `0` — while on
`[0, 2^44)` parsing `newID(t, 12, "-")` with delimiter `"-"` recovers `t`
and a 12-symbol randomness field, whatever the generator state. -/
theorem c6_compose_parse :
    (decodeTimeIDr (newID 17592186044416 12 [45] ⟨1, 2, 3, 4⟩).1 [45]).tsField =
      some 0 ∧
    ∀ t : Nat, t < 17592186044416 → ∀ s : Sfc,
      (decodeTimeIDr (newID t 12 [45] s).1 [45]).tsField = some t ∧
      ((decodeTimeIDr (newID t 12 [45] s).1 [45]).rndField).map List.length =
        some 12 :=
  ⟨by decide, fun t ht s => decode_newID t ht s⟩

/-- Witness for C6: the round trip at a concrete timestamp and state. -/
theorem c6_compose_parse_witness :
    (decodeTimeIDr (newID 1731976000000 12 [45] ⟨1, 2, 3, 4⟩).1 [45]).tsField =
      some 1731976000000 ∧
    ((decodeTimeIDr (newID 1731976000000 12 [45] ⟨1, 2, 3, 4⟩).1 [45]).rndField).map
      List.length = some 12 :=
  c6_compose_parse.2 1731976000000 (by norm_num) ⟨1, 2, 3, 4⟩

/-- C7: the claimed 48-bit prefix-decode equation fails at `t = 2^44`
(because encoding already wraps there), while for `t < 2^44` decoding the
encoding followed by arbitrary trailing characters returns exactly `t`:
`decodeTime` parses only the first 8 characters. -/
theorem c7_prefix_decode :
    decodeTime (encodeTime 17592186044416 ++
      [95, 97, 110, 121, 116, 104, 105, 110, 103]) = some 0 ∧
    ∀ t : Nat, t < 17592186044416 → ∀ sfx : List Nat,
      decodeTime (encodeTime t ++ sfx) = some t :=
  ⟨by decide, fun t ht sfx => decodeTime_prefix t ht sfx⟩

/-- Witness for C7: prefix decode at a concrete timestamp and suffix. -/
theorem c7_prefix_decode_witness :
    decodeTime (encodeTime 1000 ++ [95, 120]) = some 1000 :=
  c7_prefix_decode.2 1000 (by norm_num) [95, 120]

/-- Witness for C8: the step evaluated on the concrete state (1,2,3,4). -/
theorem c8_prng_step_witness :
    nextInt32 ⟨1, 2, 3, 4⟩ =
      (((1 + 2) % 2 ^ 32 + (4 + 1) % 2 ^ 32) % 2 ^ 32,
       ⟨2 ^^^ 2 / 2 ^ 9, (3 + 3 * 2 ^ 3) % 2 ^ 32,
        (2 ^ 21 * (3 % 2 ^ 11) + 3 / 2 ^ 11 + (1 + 2) % 2 ^ 32) % 2 ^ 32,
        (4 + 1) % 2 ^ 32⟩) :=
  c8_prng_step 1 2 3 4 (by norm_num) (by norm_num) (by norm_num) (by norm_num)

/-- C9: the specialized fast paths of `newRND` for lengths 12 and 21
produce exactly the same output string and the same final generator state
as the general slow-path batching algorithm run at those lengths from the
same starting state. -/
theorem c9_fast_slow_equiv :
    ∀ s : Sfc, fastPath12 s = slowPath 12 s ∧ fastPath21 s = slowPath 21 s :=
  fun s => fastPath_eq_slowPath s

/-- C10: whenever `decodeTime` returns a value it is below `64^8 = 2^48`,
and consequently the timestamp field of every successful `decodeTimeIDr`
parse is below `2^48`. -/
theorem c10_decoded_range :
    (∀ (tid : List Nat) (v : Nat), decodeTime tid = some v → v < 2 ^ 48) ∧
    ∀ (tidr delim : List Nat) (ts : Nat),
      (decodeTimeIDr tidr delim).tsField = some ts → ts < 2 ^ 48 :=
  ⟨fun tid v h => decodeTime_lt tid v h,
   fun tidr delim ts h => decodeTimeIDr_ts_lt tidr delim ts h⟩

/-- Witness for C10: both range bounds applied to concrete decodes. -/
theorem c10_decoded_range_witness :
    (0 : Nat) < 2 ^ 48 ∧ (5 : Nat) < 2 ^ 48 :=
  ⟨c10_decoded_range.1 [48, 48, 48, 48, 48, 48, 48, 48] 0 (by decide),
   c10_decoded_range.2 [48, 48, 48, 48, 48, 48, 48, 53] [] 5 (by decide)⟩

end TimeID
